import Mathlib

/-!
Verification development for `mysqlreplace`, a CLI tool that performs a bulk
literal find-and-replace across every text-typed column of every table of a
MySQL database.

The repository has two variants of the same program (`main.go` and a second
variant adding a `-v` flag and a `convertToString` helper).  Both share the
same structure: enumerate tables, classify text columns via `DESCRIBE`,
scan each table with `SELECT *`, apply `strings.ReplaceAll` to each rendered
non-null classified column value, and issue one parameterized `UPDATE` per
changed row, keyed by a WHERE clause over all non-null original values.

This file gives a shallow embedding of that per-row scan-and-update logic:
dynamic column values become the inductive `Value`; the two rendering
functions (`fmt.Sprintf("%v", v)` and `convertToString`) become `sprintfV`
and `convertToString`; `strings.ReplaceAll` becomes `goReplaceAll`; the row
loop of `processTable` becomes `processRowWith`; `updateRow`'s WHERE
construction becomes `buildWhere`/`updateRow`; the outer row loop with its
side effects becomes `processRows`/`processTable`, and `main`'s per-table
accumulation becomes `mainTotal`.
-/

/-- A dynamically typed column value as scanned into a Go `interface{}`:
`null` for SQL NULL, `bytes s` for a `[]byte` whose UTF-8 decoding is `s`,
`str` for a Go `string`, and `scalar r` for any other scalar already
rendered to its `%v` display form `r` (e.g. an `int64` rendered in
decimal). -/
inductive Value where
  | null : Value
  | bytes : String → Value
  | str : String → Value
  | scalar : String → Value
  deriving Repr, DecidableEq

/-- True exactly on raw byte-sequence values. -/
def Value.isBytes : Value → Bool
  | .bytes _ => true
  | _ => false

/-- Decimal rendering of a natural number, digit by digit (the form Go's
`%v` uses for a `uint8`).  The first argument is fuel bounding recursion
depth. -/
def natToDecAux : Nat → Nat → List Char
  | 0, _ => []
  | fuel + 1, n =>
    if n < 10 then [Char.ofNat (48 + n)]
    else natToDecAux fuel (n / 10) ++ [Char.ofNat (48 + n % 10)]

/-- Decimal rendering of a natural number. -/
def natToDec (n : Nat) : String :=
  ⟨natToDecAux (n + 1) n⟩

/-- Standard UTF-8 encoding of a single character, as its list of bytes. -/
def utf8Char (c : Char) : List Nat :=
  let n := c.toNat
  if n < 0x80 then [n]
  else if n < 0x800 then
    [0xC0 ||| (n >>> 6), 0x80 ||| (n &&& 0x3F)]
  else if n < 0x10000 then
    [0xE0 ||| (n >>> 12), 0x80 ||| ((n >>> 6) &&& 0x3F), 0x80 ||| (n &&& 0x3F)]
  else
    [0xF0 ||| (n >>> 18), 0x80 ||| ((n >>> 12) &&& 0x3F),
     0x80 ||| ((n >>> 6) &&& 0x3F), 0x80 ||| (n &&& 0x3F)]

/-- The UTF-8 bytes of a string. -/
def utf8Bytes (s : String) : List Nat :=
  (s.data.map utf8Char).flatten

/-- Rendering used by the first variant (`main.go` line 136):
`fmt.Sprintf("%v", values[i])`.  Go's `%v` prints a `[]byte` as a
space-separated decimal list in brackets (e.g. `[104 105]`), a `string` as
itself, any other scalar in its default display form, and a nil interface
as `<nil>`. -/
def sprintfV : Value → String
  | .null => "<nil>"
  | .bytes s => "[" ++ String.intercalate " " ((utf8Bytes s).map natToDec) ++ "]"
  | .str s => s
  | .scalar r => r

/-- Rendering used by the second variant (`convertToString`): a `[]byte`
is decoded with `string(v)`, a `string` is returned as is, and anything
else falls through to `fmt.Sprintf("%v", v)`. -/
def convertToString : Value → String
  | .bytes s => s
  | .str s => s
  | v => sprintfV v

/-- Left-to-right, non-overlapping literal replacement on character lists,
the core of Go's `strings.ReplaceAll` for a non-empty pattern.  The `Nat`
argument is fuel; with fuel at least the length of the subject list the
scan always completes (each step consumes at least one character). -/
def replaceAllFuel (search repl : List Char) : Nat → List Char → List Char
  | _, [] => []
  | 0, s => s
  | fuel + 1, c :: cs =>
    if search.isPrefixOf (c :: cs) then
      repl ++ replaceAllFuel search repl fuel ((c :: cs).drop search.length)
    else
      c :: replaceAllFuel search repl fuel cs

/-- Go's `strings.ReplaceAll` with an empty pattern inserts the
replacement before every character and after the last one. -/
def interleave (repl : List Char) : List Char → List Char
  | [] => repl
  | c :: cs => repl ++ c :: interleave repl cs

/-- Model of `strings.ReplaceAll(s, search, repl)`: every non-overlapping
occurrence of `search` in `s` is replaced by `repl`, scanning left to
right; an empty `search` interleaves `repl` between all characters. -/
def goReplaceAll (s search repl : String) : String :=
  if search = "" then ⟨interleave repl.data s.data⟩
  else ⟨replaceAllFuel search.data repl.data s.data.length s.data⟩

/-- Boolean substring containment on character lists (Go's
`strings.Contains` on the underlying strings). -/
def containsSub (search : List Char) : List Char → Bool
  | [] => search.isEmpty
  | c :: cs => search.isPrefixOf (c :: cs) || containsSub search cs

/-- Looks up the row value of a named column: the Go inner loop
`for i, ct := range columnTypes { if ct.Name() == col { ... break } }`
finds the first position whose column name matches and reads `values[i]`
there (`columnTypes`/`columnsList` and `values` are positionally
aligned). -/
def lookupVal (colNames : List String) (values : List Value) (col : String) :
    Option Value :=
  ((colNames.zip values).find? (fun p => p.1 == col)).map (·.2)

/-- The accumulator of `processTable`'s per-row column loop: the pending
`SET` fragments (`updates`), their parameter values (`args`), the
replacement counter contribution, and the `hasChanges` flag. -/
structure RowResult where
  updates : List String
  args : List String
  count : Nat
  hasChanges : Bool
  deriving Repr, DecidableEq

/-- The per-row column loop of `processTable` (lines 132-148 of `main.go`;
lines 154-175 of the second variant), parameterized by the value-rendering
function (`sprintfV` for the first variant, `convertToString` for the
second): for each classified text column, locate it by name, skip it when
absent or null, render, apply the replacement, and on a change append a
parameterized `SET` fragment and its argument and bump the counter. -/
def processRowWith (render : Value → String) (colNames : List String)
    (values : List Value) (search repl : String) : List String → RowResult
  | [] => ⟨[], [], 0, false⟩
  | col :: rest =>
    let acc := processRowWith render colNames values search repl rest
    match lookupVal colNames values col with
    | none => acc
    | some v =>
      if v = Value.null then acc
      else
        let strValue := render v
        let newValue := goReplaceAll strValue search repl
        if newValue ≠ strValue then
          ⟨(col ++ " = ?") :: acc.updates, newValue :: acc.args,
           acc.count + 1, true⟩
        else acc

/-- The change test of the column loop, factored per column: `some n` when
the named column is present, non-null, and its rendered value changes to
`n` under the replacement; `none` otherwise. -/
def changedValue (render : Value → String) (colNames : List String)
    (values : List Value) (search repl : String) (col : String) :
    Option String :=
  match lookupVal colNames values col with
  | none => none
  | some v =>
    if v = Value.null then none
    else
      let strValue := render v
      let newValue := goReplaceAll strValue search repl
      if newValue ≠ strValue then some newValue else none

/-- The WHERE-construction loop of `updateRow` (lines 194-199 of
`main.go`): walking the (column name, original value) pairs in order, each
non-null value contributes a parameterized equality predicate and its
argument. -/
def buildWhere : List (String × Value) → List String × List Value
  | [] => ([], [])
  | (name, v) :: rest =>
    let acc := buildWhere rest
    if v ≠ Value.null then ((name ++ " = ?") :: acc.1, v :: acc.2)
    else acc

/-- A fully assembled single-row UPDATE: the statement text and its
positional parameters (`SET` arguments first, then WHERE arguments, as Go
appends them). -/
structure UpdateStmt where
  query : String
  allArgs : List Value
  deriving Repr, DecidableEq

/-- Function `updateRow` (lines 190-210 of `main.go`): builds the WHERE clause from
all non-null original values, fails when that clause is empty, and
otherwise assembles the parameterized UPDATE statement. -/
def updateRow (table : String) (updates : List String) (args : List String)
    (colNames : List String) (values : List Value) : Except String UpdateStmt :=
  let wc := buildWhere (colNames.zip values)
  if wc.1 = [] then Except.error "no valid WHERE clauses found"
  else
    Except.ok
      ⟨"UPDATE " ++ table ++ " SET " ++ String.intercalate ", " updates ++
         " WHERE " ++ String.intercalate " AND " wc.1,
       args.map Value.str ++ wc.2⟩

/-- One row produced by the streaming cursor: either a successfully
decoded value vector, or a decode (`rows.Scan`) failure carrying its
error. -/
inductive ScanRow where
  | ok : List Value → ScanRow
  | scanFail : String → ScanRow
  deriving Repr, DecidableEq

/-- The observable outcome of processing one table: whether a row scan
(`SELECT *`) was issued, every UPDATE handed to `db.Exec` in order, the
subset of those that succeeded (were committed), and the `(int, error)`
pair the Go function returns, with `none` standing for a nil error. -/
structure TableOutcome where
  scanIssued : Bool
  issued : List UpdateStmt
  executed : List UpdateStmt
  result : Nat × Option String
  deriving Repr, DecidableEq

/-- The row loop of `processTable` (lines 117-155 of `main.go`): each
decoded row runs the column loop; when `hasChanges` is set, `updateRow`
builds the statement, which is executed immediately (`exec` returns
`none` on success).  Any error returns `(0, err)` on the spot, discarding
the running counter but leaving earlier committed updates in place. -/
def processRows (render : Value → String) (table : String)
    (columns colNames : List String) (search repl : String)
    (exec : UpdateStmt → Option String) :
    List ScanRow → List UpdateStmt → List UpdateStmt → Nat → TableOutcome
  | [], issued, execed, total => ⟨true, issued, execed, (total, none)⟩
  | ScanRow.scanFail e :: _, issued, execed, _ => ⟨true, issued, execed, (0, some e)⟩
  | ScanRow.ok values :: rest, issued, execed, total =>
    let r := processRowWith render colNames values search repl columns
    let total' := total + r.count
    if r.hasChanges then
      match updateRow table r.updates r.args colNames values with
      | Except.error e => ⟨true, issued, execed, (0, some e)⟩
      | Except.ok u =>
        match exec u with
        | some e => ⟨true, issued ++ [u], execed, (0, some e)⟩
        | none =>
          processRows render table columns colNames search repl exec
            rest (issued ++ [u]) (execed ++ [u]) total'
    else
      processRows render table columns colNames search repl exec
        rest issued execed total'

/-- A column descriptor as scanned from one `DESCRIBE` row: field name,
declared type, nullability, key, default and extra (only `field` and
`typ` are consulted afterwards). -/
structure ColumnDesc where
  field : String
  typ : String
  nullAttr : String
  key : String
  defaultVal : Value
  extra : String
  deriving Repr, DecidableEq

/-- ASCII lower-casing of one character, as `strings.ToLower` acts on the
ASCII range (MySQL declared type strings are ASCII). -/
def lowerChar (c : Char) : Char :=
  if 65 ≤ c.toNat ∧ c.toNat ≤ 90 then Char.ofNat (c.toNat + 32) else c

/-- Model of `strings.ToLower`, acting on the character list of a string. -/
def lowerStr (s : String) : List Char :=
  s.data.map lowerChar

/-- The classification test of `getTextColumns` (lines 179-181 of
`main.go`): the lower-cased declared type contains `"char"`, `"text"` or
`"varchar"` as a substring. -/
def isTextType (typ : String) : Bool :=
  containsSub "char".data (lowerStr typ) ||
    containsSub "text".data (lowerStr typ) ||
    containsSub "varchar".data (lowerStr typ)

/-- Function `getTextColumns` (lines 160-188 of `main.go`): keeps, in order, the
field name of every descriptor whose declared type passes
`isTextType`. -/
def getTextColumns : List ColumnDesc → List String
  | [] => []
  | d :: rest =>
    if isTextType d.typ then d.field :: getTextColumns rest
    else getTextColumns rest

/-- Function `processTable` (lines 95-158 of `main.go`): classify the text columns;
when none, return `(0, nil)` without issuing a row scan; otherwise scan
and run the row loop. -/
def processTable (render : Value → String) (table : String)
    (descs : List ColumnDesc) (colNames : List String) (rows : List ScanRow)
    (search repl : String) (exec : UpdateStmt → Option String) : TableOutcome :=
  let columns := getTextColumns descs
  if columns = [] then ⟨false, [], [], (0, none)⟩
  else processRows render table columns colNames search repl exec rows [] [] 0

/-- The per-table accumulation of `main` (lines 38-48 of `main.go`): a
table whose processing returned an error is logged and skipped
(`continue`); a successful table adds its replacement count to the
total. -/
def mainTotal : List (Nat × Option String) → Nat
  | [] => 0
  | (n, none) :: rest => n + mainTotal rest
  | (_, some _) :: rest => mainTotal rest

/-- The classified columns of a row that actually change under the
replacement, in classification order. -/
def changedCols (render : Value → String) (colNames : List String)
    (values : List Value) (search repl : String) (textCols : List String) :
    List String :=
  textCols.filter fun c => (changedValue render colNames values search repl c).isSome

/-- Closed form of the per-row column loop: the pending updates are one
`SET` fragment per changed column in order, the arguments are the changed
columns' new values, the counter is the number of changed columns, and
`hasChanges` holds exactly when some column changed. -/
theorem processRowWith_eq (render : Value → String) (colNames : List String)
    (values : List Value) (search repl : String) (textCols : List String) :
    processRowWith render colNames values search repl textCols =
      ⟨(changedCols render colNames values search repl textCols).map
          (fun c => c ++ " = ?"),
        textCols.filterMap (changedValue render colNames values search repl),
        (changedCols render colNames values search repl textCols).length,
        !(changedCols render colNames values search repl textCols).isEmpty⟩ := by
  induction textCols with
  | nil => rfl
  | cons col rest ih =>
    simp only [processRowWith, changedCols, List.filter_cons, List.filterMap_cons, ih]
    cases hl : lookupVal colNames values col with
    | none => simp [changedValue, hl, changedCols]
    | some v =>
      by_cases hv : v = Value.null
      · subst hv
        simp [changedValue, hl, changedCols]
      · by_cases hn : goReplaceAll (render v) search repl = render v
        · simp [changedValue, hl, hv, hn, changedCols]
        · simp [changedValue, hl, hv, hn, changedCols]

/-- A successful name lookup returns a (name, value) pair of the scanned
row. -/
theorem lookupVal_mem {colNames : List String} {values : List Value}
    {col : String} {v : Value} (h : lookupVal colNames values col = some v) :
    (col, v) ∈ colNames.zip values := by
  unfold lookupVal at h
  cases hf : (colNames.zip values).find? (fun p => p.1 == col) with
  | none => rw [hf] at h; simp at h
  | some p =>
    rw [hf] at h
    simp only [Option.map_some', Option.some.injEq] at h
    have hmem := List.mem_of_find?_eq_some hf
    have hp := List.find?_some hf
    have hp1 : p.1 = col := by simpa using hp
    have : p = (col, v) := by
      cases p with
      | mk a b => simp_all
    rwa [this] at hmem

/-- Closed form of the WHERE-construction loop: one predicate and one
argument per non-null pair, in order. -/
theorem buildWhere_eq (pairs : List (String × Value)) :
    buildWhere pairs =
      ((pairs.filter fun p => p.2 ≠ Value.null).map fun p => p.1 ++ " = ?",
        (pairs.filter fun p => p.2 ≠ Value.null).map Prod.snd) := by
  induction pairs with
  | nil => rfl
  | cons p rest ih =>
    obtain ⟨name, v⟩ := p
    by_cases hv : v = Value.null
    · subst hv
      simp [buildWhere, List.filter_cons, ih]
    · simp [buildWhere, List.filter_cons, hv, ih]

/-- A set-aside change record means the column is present with a non-null
value whose rendering changes. -/
theorem changedValue_isSome {render : Value → String} {colNames : List String}
    {values : List Value} {search repl col : String}
    (h : (changedValue render colNames values search repl col).isSome = true) :
    ∃ v, lookupVal colNames values col = some v ∧ v ≠ Value.null ∧
      goReplaceAll (render v) search repl ≠ render v := by
  unfold changedValue at h
  cases hl : lookupVal colNames values col with
  | none => rw [hl] at h; simp at h
  | some v =>
    rw [hl] at h
    by_cases hv : v = Value.null
    · simp [hv] at h
    · by_cases hn : goReplaceAll (render v) search repl = render v
      · simp [hv, hn] at h
      · exact ⟨v, rfl, hv, hn⟩

/-- The empty pattern is a substring of everything. -/
theorem containsSub_nil (l : List Char) : containsSub [] l = true := by
  induction l with
  | nil => rfl
  | cons c cs ih => simp [containsSub, ih, List.isPrefixOf]

/-- A subject without any occurrence of the pattern is left unchanged by
the replacement scan, whatever the fuel. -/
theorem replaceAllFuel_of_not_contains {search : List Char} (repl : List Char)
    {s : List Char} (h : containsSub search s = false) (fuel : Nat) :
    replaceAllFuel search repl fuel s = s := by
  induction s generalizing fuel with
  | nil => cases fuel <;> rfl
  | cons c cs ih =>
    simp only [containsSub, Bool.or_eq_false_iff] at h
    cases fuel with
    | zero => rfl
    | succ fuel => simp [replaceAllFuel, h.1, ih h.2]

/-- A string without any occurrence of the pattern is a fixed point of
`goReplaceAll`. -/
theorem goReplaceAll_of_not_contains {t search : String} (repl : String)
    (h : containsSub search.data t.data = false) :
    goReplaceAll t search repl = t := by
  have hs : search ≠ "" := by
    intro he
    subst he
    rw [containsSub_nil] at h
    exact Bool.true_eq_false.mp h
  unfold goReplaceAll
  rw [if_neg hs]
  cases t with
  | mk data => simp [replaceAllFuel_of_not_contains _ h]

/-- Order-preserving closed form of the column classifier. -/
theorem getTextColumns_eq (descs : List ColumnDesc) :
    getTextColumns descs =
      (descs.filter fun d => isTextType d.typ).map ColumnDesc.field := by
  induction descs with
  | nil => rfl
  | cons d rest ih =>
    by_cases h : isTextType d.typ
    · simp [getTextColumns, h, List.filter_cons, ih]
    · simp [getTextColumns, h, List.filter_cons, ih]

/-- C3.  For every row, the replacement counter of the column loop equals
the number of classified columns whose rendered value changed — one count
unit per changed column, never one per occurrence.  The closed second
conjunct exhibits a column value with three occurrences of the search
literal whose replacement still counts exactly 1. -/
theorem c3_one_count_per_changed_column :
    (∀ (render : Value → String) (colNames : List String) (values : List Value)
        (search repl : String) (textCols : List String),
      (processRowWith render colNames values search repl textCols).count =
        (changedCols render colNames values search repl textCols).length) ∧
    (processRowWith sprintfV ["bio"] [Value.str "foo x foo y foo"] "foo" "bar"
        ["bio"]).count = 1 := by
  constructor
  · intro render colNames values search repl textCols
    rw [processRowWith_eq]
  · decide

/-- C7, as stated, is false: with `search = "ab"` and `replace = "a"` the
replace literal does not contain the search literal, yet on `"abb"` one
pass yields `"ab"` (the replacement rejoins with the following character
to recreate an occurrence) and a second pass yields `"a"`. -/
theorem c7_counterexample :
    containsSub "ab".data "a".data = false ∧
    goReplaceAll "abb" "ab" "a" = "ab" ∧
    goReplaceAll (goReplaceAll "abb" "ab" "a") "ab" "a" ≠
      goReplaceAll "abb" "ab" "a" := by
  decide

/-- C7, amended: a second pass with the same search/replace pair yields
the same result provided the output of the first pass no longer contains
the search literal as a substring (the hypothesis that `replace` does not
contain `search` is not sufficient, since a replacement can rejoin with
its context to form a new occurrence). -/
theorem c7_amended (s search repl : String)
    (h : containsSub search.data (goReplaceAll s search repl).data = false) :
    goReplaceAll (goReplaceAll s search repl) search repl =
      goReplaceAll s search repl :=
  goReplaceAll_of_not_contains repl h

/-- Witness for `c7_amended` at `s = "xfooy"`, `search = "foo"`,
`replace = "bar"`. -/
theorem c7_amended_w :
    containsSub "foo".data (goReplaceAll "xfooy" "foo" "bar").data = false ∧
    goReplaceAll (goReplaceAll "xfooy" "foo" "bar") "foo" "bar" =
      goReplaceAll "xfooy" "foo" "bar" :=
  ⟨by decide, c7_amended "xfooy" "foo" "bar" (by decide)⟩

/-- C8.  The classifier keeps exactly the descriptors whose lower-cased
declared type contains `"char"`, `"text"` or `"varchar"` as a substring,
emits their field names in the order the descriptors were returned, and
consults nothing else: two descriptor lists agreeing on (field, type)
pairs classify identically whatever their nullability, key, default or
extra parts. -/
theorem c8_classifier_spec :
    (∀ descs : List ColumnDesc,
      getTextColumns descs =
        (descs.filter fun d =>
            containsSub "char".data (lowerStr d.typ) ||
              containsSub "text".data (lowerStr d.typ) ||
              containsSub "varchar".data (lowerStr d.typ)).map
          ColumnDesc.field) ∧
    (∀ descs descs' : List ColumnDesc,
      descs.map (fun d => (d.field, d.typ)) =
        descs'.map (fun d => (d.field, d.typ)) →
      getTextColumns descs = getTextColumns descs') := by
  constructor
  · intro descs
    rw [getTextColumns_eq]
    simp only [isTextType]
  · intro descs
    induction descs with
    | nil =>
      intro descs' h
      cases descs' with
      | nil => rfl
      | cons => simp at h
    | cons d rest ih =>
      intro descs' h
      cases descs' with
      | nil => simp at h
      | cons d' rest' =>
        simp only [List.map_cons, List.cons.injEq] at h
        have hf : d.field = d'.field := congrArg Prod.fst h.1
        have ht : d.typ = d'.typ := congrArg Prod.snd h.1
        by_cases hx : isTextType d.typ
        · rw [ht] at hx
          simp [getTextColumns, ht ▸ hx, hx, hf, ih rest' h.2]
        · rw [ht] at hx
          simp [getTextColumns, ht ▸ hx, hx, ih rest' h.2]

/-- C9.  When the classifier returns no text column, the table is
processed without issuing a row scan, executes nothing, and returns
`(0, nil)`. -/
theorem c9_no_text_columns (render : Value → String) (table : String)
    (descs : List ColumnDesc) (colNames : List String) (rows : List ScanRow)
    (search repl : String) (exec : UpdateStmt → Option String)
    (h : getTextColumns descs = []) :
    processTable render table descs colNames rows search repl exec =
      ⟨false, [], [], (0, none)⟩ := by
  unfold processTable
  simp [h]

/-- Witness for `c9_no_text_columns` on a table with a single `int`
column. -/
theorem c9_no_text_columns_w :
    getTextColumns [⟨"id", "int", "NO", "PRI", Value.null, ""⟩] = [] ∧
    processTable sprintfV "users" [⟨"id", "int", "NO", "PRI", Value.null, ""⟩]
        ["id"] [ScanRow.ok [Value.scalar "1"]] "a" "b" (fun _ => none) =
      ⟨false, [], [], (0, none)⟩ :=
  ⟨by decide,
    c9_no_text_columns sprintfV "users" _ ["id"] _ "a" "b" _ (by decide)⟩

/-- C4.  Null-valued columns are invisible to the engine: deleting every
classified column whose looked-up value is null from the classified list
leaves the row result (SET fragments, arguments, counter, flag)
unchanged; the WHERE construction keeps exactly the non-null (name,
value) pairs in order; and every WHERE argument is non-null. -/
theorem c4_null_columns_skipped :
    (∀ (render : Value → String) (colNames : List String) (values : List Value)
        (search repl : String) (textCols : List String),
      processRowWith render colNames values search repl textCols =
        processRowWith render colNames values search repl
          (textCols.filter fun c =>
            lookupVal colNames values c ≠ some Value.null)) ∧
    (∀ pairs : List (String × Value),
      buildWhere pairs =
        ((pairs.filter fun p => p.2 ≠ Value.null).map fun p => p.1 ++ " = ?",
          (pairs.filter fun p => p.2 ≠ Value.null).map Prod.snd)) ∧
    (∀ pairs : List (String × Value), ∀ v ∈ (buildWhere pairs).2,
      v ≠ Value.null) := by
  refine ⟨?_, buildWhere_eq, ?_⟩
  · intro render colNames values search repl textCols
    induction textCols with
    | nil => rfl
    | cons col rest ih =>
      by_cases h : lookupVal colNames values col = some Value.null
      · rw [List.filter_cons, if_neg (by simp [h]), ← ih]
        simp [processRowWith, h]
      · rw [List.filter_cons, if_pos (by simp [h])]
        cases hl : lookupVal colNames values col with
        | none => simp [processRowWith, hl, ih]
        | some v =>
          have hv : v ≠ Value.null := fun he => h (he ▸ hl)
          simp [processRowWith, hl, hv, ih]
  · intro pairs v hv
    rw [buildWhere_eq] at hv
    simp only [List.mem_map, List.mem_filter] at hv
    obtain ⟨p, ⟨-, hp⟩, rfl⟩ := hv
    simpa using hp

/-- Whether a scanned row would set `hasChanges` in the column loop (the
filter used to bound update issuance per row). -/
def rowChanged (render : Value → String) (columns colNames : List String)
    (search repl : String) : ScanRow → Bool
  | .ok values =>
    (processRowWith render colNames values search repl columns).hasChanges
  | .scanFail _ => false

/-- The row loop issues at most one UPDATE per changed row: the issued
list grows by at most the number of rows whose column loop set
`hasChanges`. -/
theorem processRows_issued_le (render : Value → String) (table : String)
    (columns colNames : List String) (search repl : String)
    (exec : UpdateStmt → Option String) :
    ∀ (rows : List ScanRow) (issued execed : List UpdateStmt) (total : Nat),
      (processRows render table columns colNames search repl exec
          rows issued execed total).issued.length ≤
        issued.length +
          (rows.filter (rowChanged render columns colNames search repl)).length := by
  intro rows
  induction rows with
  | nil => intro issued execed total; simp [processRows]
  | cons row rest ih =>
    intro issued execed total
    cases row with
    | scanFail e =>
      have h1 : processRows render table columns colNames search repl exec
          (ScanRow.scanFail e :: rest) issued execed total =
          ⟨true, issued, execed, (0, some e)⟩ := rfl
      rw [h1]
      simp only [List.filter_cons, rowChanged, Bool.false_eq_true, if_false]
      omega
    | ok values =>
      cases hc : (processRowWith render colNames values search repl
          columns).hasChanges with
      | false =>
        have h1 : processRows render table columns colNames search repl exec
            (ScanRow.ok values :: rest) issued execed total =
            processRows render table columns colNames search repl exec rest
              issued execed
              (total + (processRowWith render colNames values search repl
                columns).count) := by
          simp [processRows, hc]
        have h2 : (ScanRow.ok values :: rest).filter
            (rowChanged render columns colNames search repl) =
            rest.filter (rowChanged render columns colNames search repl) := by
          simp [List.filter_cons, rowChanged, hc]
        rw [h1, h2]
        exact ih issued execed _
      | true =>
        have h2 : (ScanRow.ok values :: rest).filter
            (rowChanged render columns colNames search repl) =
            ScanRow.ok values ::
              rest.filter (rowChanged render columns colNames search repl) := by
          simp [List.filter_cons, rowChanged, hc]
        rw [h2, List.length_cons]
        cases hu : updateRow table
            (processRowWith render colNames values search repl columns).updates
            (processRowWith render colNames values search repl columns).args
            colNames values with
        | error e =>
          have h1 : processRows render table columns colNames search repl exec
              (ScanRow.ok values :: rest) issued execed total =
              ⟨true, issued, execed, (0, some e)⟩ := by
            simp [processRows, hc, hu]
          rw [h1]
          dsimp only
          omega
        | ok u =>
          cases he : exec u with
          | some e =>
            have h1 : processRows render table columns colNames search repl exec
                (ScanRow.ok values :: rest) issued execed total =
                ⟨true, issued ++ [u], execed, (0, some e)⟩ := by
              simp [processRows, hc, hu, he]
            rw [h1]
            dsimp only
            simp only [List.length_append, List.length_singleton]
            omega
          | none =>
            have h1 : processRows render table columns colNames search repl exec
                (ScanRow.ok values :: rest) issued execed total =
                processRows render table columns colNames search repl exec rest
                  (issued ++ [u]) (execed ++ [u])
                  (total + (processRowWith render colNames values search repl
                    columns).count) := by
              simp [processRows, hc, hu, he]
            rw [h1]
            have h3 := ih (issued ++ [u]) (execed ++ [u])
              (total + (processRowWith render colNames values search repl
                columns).count)
            simp only [List.length_append, List.length_singleton] at h3
            omega

/-- C5.  Per scan pass, at most one UPDATE is handed to the database per
row, and only rows with at least one changed classified column are
counted by that bound; the `hasChanges` flag that gates issuance holds
exactly when some classified column actually changed. -/
theorem c5_at_most_one_update_per_row :
    (∀ (render : Value → String) (table : String) (descs : List ColumnDesc)
        (colNames : List String) (rows : List ScanRow) (search repl : String)
        (exec : UpdateStmt → Option String),
      (processTable render table descs colNames rows search repl
          exec).issued.length ≤
        (rows.filter (rowChanged render (getTextColumns descs) colNames
          search repl)).length) ∧
    (∀ (render : Value → String) (colNames : List String) (values : List Value)
        (search repl : String) (textCols : List String),
      (processRowWith render colNames values search repl textCols).hasChanges =
          true ↔
        ∃ col ∈ textCols,
          (changedValue render colNames values search repl col).isSome = true) := by
  constructor
  · intro render table descs colNames rows search repl exec
    unfold processTable
    by_cases h : getTextColumns descs = []
    · simp [h]
    · simp only [h, if_false]
      have := processRows_issued_le render table (getTextColumns descs)
        colNames search repl exec rows [] [] 0
      simpa using this
  · intro render colNames values search repl textCols
    rw [processRowWith_eq]
    simp only [changedCols]
    constructor
    · intro h
      have hne : textCols.filter
          (fun c => (changedValue render colNames values search repl c).isSome) ≠
            [] := by
        intro he
        rw [he] at h
        simp at h
      obtain ⟨c, hc⟩ := List.exists_mem_of_ne_nil _ hne
      have := List.mem_filter.mp hc
      exact ⟨c, this.1, this.2⟩
    · intro ⟨c, hmem, hsome⟩
      have : c ∈ textCols.filter
          (fun c => (changedValue render colNames values search repl c).isSome) :=
        List.mem_filter.mpr ⟨hmem, hsome⟩
      cases hf : textCols.filter
          (fun c => (changedValue render colNames values search repl c).isSome) with
      | nil => rw [hf] at this; simp at this
      | cons a l => simp [hf]

/-- C2, as stated, is false: on a raw byte sequence the two variants
render different display strings — `fmt.Sprintf("%v", v)` prints the
bytes of `"a"` as the decimal list `"[97]"` while `convertToString`
decodes them to `"a"` — and on a row holding that byte value with
search `"a"`, replace `"b"`, the first variant records no pending update
(count 0) while the second records one (count 1). -/
theorem c2_counterexample :
    sprintfV (Value.bytes "a") = "[97]" ∧
    convertToString (Value.bytes "a") = "a" ∧
    sprintfV (Value.bytes "a") ≠ convertToString (Value.bytes "a") ∧
    (processRowWith sprintfV ["c"] [Value.bytes "a"] "a" "b" ["c"]).count = 0 ∧
    (processRowWith convertToString ["c"] [Value.bytes "a"] "a" "b"
      ["c"]).count = 1 := by
  decide

/-- C2, amended: the two variants render null, string and other scalar
values identically, and therefore agree on pending updates, counts and
the assembled UPDATE for every row none of whose values is a raw byte
sequence; rows containing byte values can diverge (see the
counterexample). -/
theorem c2_variants_agree_without_bytes :
    (∀ v : Value, v.isBytes = false → sprintfV v = convertToString v) ∧
    (∀ (colNames : List String) (values : List Value) (search repl : String)
        (textCols : List String), (∀ v ∈ values, v.isBytes = false) →
      processRowWith sprintfV colNames values search repl textCols =
        processRowWith convertToString colNames values search repl textCols) ∧
    (∀ (table : String) (colNames : List String) (values : List Value)
        (search repl : String) (textCols : List String),
      (∀ v ∈ values, v.isBytes = false) →
      updateRow table
          (processRowWith sprintfV colNames values search repl textCols).updates
          (processRowWith sprintfV colNames values search repl textCols).args
          colNames values =
        updateRow table
          (processRowWith convertToString colNames values search repl
            textCols).updates
          (processRowWith convertToString colNames values search repl
            textCols).args
          colNames values) := by
  have hrender : ∀ v : Value, v.isBytes = false →
      sprintfV v = convertToString v := by
    intro v hv
    cases v with
    | null => rfl
    | bytes s => simp [Value.isBytes] at hv
    | str s => rfl
    | scalar r => rfl
  have hrow : ∀ (colNames : List String) (values : List Value)
      (search repl : String) (textCols : List String),
      (∀ v ∈ values, v.isBytes = false) →
      processRowWith sprintfV colNames values search repl textCols =
        processRowWith convertToString colNames values search repl textCols := by
    intro colNames values search repl textCols h
    induction textCols with
    | nil => rfl
    | cons col rest ih =>
      simp only [processRowWith, ih]
      cases hl : lookupVal colNames values col with
      | none => rfl
      | some v =>
        have hvmem : v ∈ values := (List.of_mem_zip (lookupVal_mem hl)).2
        dsimp only
        rw [hrender v (h v hvmem)]
  exact ⟨hrender, hrow, fun table colNames values search repl textCols h => by
    rw [hrow colNames values search repl textCols h]⟩

/-- Witness for `c2_variants_agree_without_bytes` on a byte-free row. -/
theorem c2_variants_agree_without_bytes_w :
    (∀ v ∈ [Value.str "foo", Value.null], v.isBytes = false) ∧
    processRowWith sprintfV ["a", "b"] [Value.str "foo", Value.null] "foo" "z"
        ["a", "b"] =
      processRowWith convertToString ["a", "b"] [Value.str "foo", Value.null]
        "foo" "z" ["a", "b"] :=
  ⟨by decide, c2_variants_agree_without_bytes.2.1 ["a", "b"]
    [Value.str "foo", Value.null] "foo" "z" ["a", "b"] (by decide)⟩

/-- C6.  Whenever the column loop flags a change, `updateRow` succeeds
(the WHERE clause cannot be empty, since a changed column has a non-null
original value): the SET clause carries exactly one parameterized
assignment per changed classified column, the WHERE clause is the
AND-conjunction of one parameterized equality per non-null original
column in row order, the parameters are the new values followed by the
original non-null values, and every non-null column — changed ones
included — is matched against its original value. -/
theorem c6_update_statement_shape (render : Value → String) (table : String)
    (textCols colNames : List String) (values : List Value)
    (search repl : String)
    (h : (processRowWith render colNames values search repl
      textCols).hasChanges = true) :
    ∃ u : UpdateStmt,
      updateRow table
          (processRowWith render colNames values search repl textCols).updates
          (processRowWith render colNames values search repl textCols).args
          colNames values = Except.ok u ∧
      u.query = "UPDATE " ++ table ++ " SET " ++
          String.intercalate ", "
            ((changedCols render colNames values search repl textCols).map
              (fun c => c ++ " = ?")) ++
          " WHERE " ++
          String.intercalate " AND "
            (((colNames.zip values).filter fun p => p.2 ≠ Value.null).map
              (fun p => p.1 ++ " = ?")) ∧
      u.allArgs =
        (textCols.filterMap
            (changedValue render colNames values search repl)).map Value.str ++
          ((colNames.zip values).filter fun p => p.2 ≠ Value.null).map
            Prod.snd ∧
      ∀ col v, lookupVal colNames values col = some v → v ≠ Value.null →
        (col ++ " = ?", v) ∈
          ((((colNames.zip values).filter fun p => p.2 ≠ Value.null).map
              (fun p => p.1 ++ " = ?")).zip
            (((colNames.zip values).filter fun p => p.2 ≠ Value.null).map
              Prod.snd)) := by
  rw [processRowWith_eq] at h ⊢
  dsimp only at h ⊢
  have hne : changedCols render colNames values search repl textCols ≠ [] := by
    simpa using h
  obtain ⟨c, hcmem⟩ := List.exists_mem_of_ne_nil _ hne
  have hcf := List.mem_filter.mp hcmem
  obtain ⟨v0, hl0, hv0, -⟩ := changedValue_isSome hcf.2
  have hfil0 : (c, v0) ∈ (colNames.zip values).filter
      fun p => p.2 ≠ Value.null :=
    List.mem_filter.mpr ⟨lookupVal_mem hl0, by simpa using hv0⟩
  have hwne : ((colNames.zip values).filter fun p => p.2 ≠ Value.null) ≠ [] := by
    intro he
    rw [he] at hfil0
    simp at hfil0
  simp only [updateRow, buildWhere_eq]
  rw [if_neg (by simpa using hwne)]
  refine ⟨_, rfl, rfl, rfl, ?_⟩
  intro col v hl hv
  rw [List.zip_map']
  exact List.mem_map.mpr
    ⟨(col, v), List.mem_filter.mpr ⟨lookupVal_mem hl, by simpa using hv⟩, rfl⟩

/-- Witness for `c6_update_statement_shape` on the spec's end-to-end
scenario: table `users` with `(id, bio)`, bio changing under the
replacement. -/
theorem c6_update_statement_shape_w :
    (processRowWith sprintfV ["id", "bio"]
        [Value.scalar "1", Value.str "visit old.site.com now"]
        "old.site.com" "new.site.com" ["bio"]).hasChanges = true ∧
    (updateRow "users"
        (processRowWith sprintfV ["id", "bio"]
          [Value.scalar "1", Value.str "visit old.site.com now"]
          "old.site.com" "new.site.com" ["bio"]).updates
        (processRowWith sprintfV ["id", "bio"]
          [Value.scalar "1", Value.str "visit old.site.com now"]
          "old.site.com" "new.site.com" ["bio"]).args
        ["id", "bio"]
        [Value.scalar "1", Value.str "visit old.site.com now"]).isOk = true := by
  refine ⟨by decide, ?_⟩
  obtain ⟨u, hu, -, -, -⟩ := c6_update_statement_shape sprintfV "users" ["bio"]
    ["id", "bio"] [Value.scalar "1", Value.str "visit old.site.com now"]
    "old.site.com" "new.site.com" (by decide)
  rw [hu]
  rfl

/-- C1, as stated, is false in its abort-scope part: a row whose every
column value is null does make `updateRow` fail (first conjunct, here
with a pending update `c = ?` present), but the failure does not abort
the whole run — `main` logs the per-table error and continues with the
remaining tables, so a later table's replacements (here 1) still reach
the final total (second conjunct). -/
theorem c1_counterexample :
    updateRow "t" ["c = ?"] ["x"] ["c"] [Value.null] =
      Except.error "no valid WHERE clauses found" ∧
    mainTotal [(0, some "no valid WHERE clauses found"), (1, none)] = 1 :=
  ⟨rfl, rfl⟩

/-- C1, amended: when `updateRow` is reached with every column value
null, it fails with the `no valid WHERE clauses found` error; that error
aborts processing of the current table only, and the run continues — the
per-table accumulation of `main` skips an erroring table and goes on to
add the counts of the remaining tables. -/
theorem c1_all_null_fails_table_only (table : String)
    (updates args colNames : List String) (values : List Value)
    (h : ∀ v ∈ values, v = Value.null) :
    updateRow table updates args colNames values =
      Except.error "no valid WHERE clauses found" ∧
    ∀ (n : Nat) (e : String) (rest : List (Nat × Option String)),
      mainTotal ((n, some e) :: rest) = mainTotal rest := by
  constructor
  · have hf : (colNames.zip values).filter (fun p => p.2 ≠ Value.null) = [] := by
      rw [List.filter_eq_nil_iff]
      rintro ⟨a, b⟩ hp
      have hb : b ∈ values := (List.of_mem_zip hp).2
      simp [h b hb]
    simp [updateRow, buildWhere_eq, hf]
    intro a b hp
    exact h b (List.of_mem_zip hp).2
  · intro n e rest
    rfl

/-- Witness for `c1_all_null_fails_table_only` on a one-column all-null
row followed by a table contributing 2. -/
theorem c1_all_null_fails_table_only_w :
    updateRow "t" ["c = ?"] ["new"] ["c"] [Value.null] =
      Except.error "no valid WHERE clauses found" ∧
    mainTotal [(0, some "no valid WHERE clauses found"), (2, none)] =
      mainTotal [(2, none)] :=
  ⟨(c1_all_null_fails_table_only "t" ["c = ?"] ["new"] ["c"] [Value.null]
      (by decide)).1,
    (c1_all_null_fails_table_only "t" ["c = ?"] ["new"] ["c"] [Value.null]
      (by decide)).2 0 "no valid WHERE clauses found" [(2, none)]⟩

/-- Every error exit of the row loop returns a zero count in its
`(int, error)` pair, whatever was already counted or committed. -/
theorem processRows_error_zero (render : Value → String) (table : String)
    (columns colNames : List String) (search repl : String)
    (exec : UpdateStmt → Option String) :
    ∀ (rows : List ScanRow) (issued execed : List UpdateStmt) (total : Nat)
      (e : String),
      (processRows render table columns colNames search repl exec rows issued
          execed total).result.2 = some e →
      (processRows render table columns colNames search repl exec rows issued
          execed total).result.1 = 0 := by
  intro rows
  induction rows with
  | nil =>
    intro issued execed total e hE
    simp [processRows] at hE
  | cons row rest ih =>
    intro issued execed total e hE
    cases row with
    | scanFail msg => rfl
    | ok values =>
      cases hc : (processRowWith render colNames values search repl
          columns).hasChanges with
      | false =>
        have h1 : processRows render table columns colNames search repl exec
            (ScanRow.ok values :: rest) issued execed total =
            processRows render table columns colNames search repl exec rest
              issued execed
              (total + (processRowWith render colNames values search repl
                columns).count) := by
          simp [processRows, hc]
        rw [h1] at hE ⊢
        exact ih issued execed _ e hE
      | true =>
        cases hu : updateRow table
            (processRowWith render colNames values search repl columns).updates
            (processRowWith render colNames values search repl columns).args
            colNames values with
        | error msg =>
          have h1 : processRows render table columns colNames search repl exec
              (ScanRow.ok values :: rest) issued execed total =
              ⟨true, issued, execed, (0, some msg)⟩ := by
            simp [processRows, hc, hu]
          rw [h1]
        | ok u =>
          cases he : exec u with
          | some msg =>
            have h1 : processRows render table columns colNames search repl exec
                (ScanRow.ok values :: rest) issued execed total =
                ⟨true, issued ++ [u], execed, (0, some msg)⟩ := by
              simp [processRows, hc, hu, he]
            rw [h1]
          | none =>
            have h1 : processRows render table columns colNames search repl exec
                (ScanRow.ok values :: rest) issued execed total =
                processRows render table columns colNames search repl exec rest
                  (issued ++ [u]) (execed ++ [u])
                  (total + (processRowWith render colNames values search repl
                    columns).count) := by
              simp [processRows, hc, hu, he]
            rw [h1] at hE ⊢
            exact ih (issued ++ [u]) (execed ++ [u]) _ e hE

/-- C10.  A mid-scan error makes `processTable` return a zero count next
to the error; `main` adds nothing for an erroring table; and there is a
run — first row changed, committed, second row's decode failing — whose
one committed column change is thereby absent from the reported totals
(the table's outcome has one executed UPDATE but result `(0, scan
error)`). -/
theorem c10_error_drops_committed_count :
    (∀ (render : Value → String) (table : String) (descs : List ColumnDesc)
        (colNames : List String) (rows : List ScanRow) (search repl : String)
        (exec : UpdateStmt → Option String) (e : String),
      (processTable render table descs colNames rows search repl
          exec).result.2 = some e →
      (processTable render table descs colNames rows search repl
          exec).result.1 = 0) ∧
    (∀ (n : Nat) (e : String) (rest : List (Nat × Option String)),
      mainTotal ((n, some e) :: rest) = mainTotal rest) ∧
    ((processTable convertToString "t"
        [⟨"c", "text", "YES", "", Value.null, ""⟩] ["c"]
        [ScanRow.ok [Value.str "a"], ScanRow.scanFail "scan error"] "a" "b"
        (fun _ => none)).executed.length = 1 ∧
      (processTable convertToString "t"
        [⟨"c", "text", "YES", "", Value.null, ""⟩] ["c"]
        [ScanRow.ok [Value.str "a"], ScanRow.scanFail "scan error"] "a" "b"
        (fun _ => none)).result = (0, some "scan error")) := by
  refine ⟨?_, fun n e rest => rfl, by decide⟩
  intro render table descs colNames rows search repl exec e hE
  simp only [processTable] at hE ⊢
  by_cases h : getTextColumns descs = []
  · simp [h] at hE
  · simp only [h, if_false] at hE ⊢
    exact processRows_error_zero render table _ colNames search repl exec rows
      [] [] 0 e hE

/-- Witness for `c10_error_drops_committed_count` on a table whose only
row fails to decode. -/
theorem c10_error_drops_committed_count_w :
    (processTable convertToString "t2"
        [⟨"c", "varchar(20)", "YES", "", Value.null, ""⟩] ["c"]
        [ScanRow.scanFail "boom"] "a" "b" (fun _ => none)).result.1 = 0 :=
  c10_error_drops_committed_count.1 convertToString "t2"
    [⟨"c", "varchar(20)", "YES", "", Value.null, ""⟩] ["c"]
    [ScanRow.scanFail "boom"] "a" "b" (fun _ => none) "boom" (by decide)

